import Mathlib

/-!
Shallow embedding of the distributed triangular solve core in
`SRC/LBCworks.pdgstrs.c` (SuperLU_DIST): the B<->X redistributors
(`pdReDistribute_B_to_X`, `pdReDistribute_X_to_B`), the diagonal-block
inverter (`pdCompute_Diag_Inv`), and the control flow, argument
validation and counter setup of the solve entry point `pdgstrs`.

Arrays are embedded as functions `Nat -> Q` (for double arrays) or
`Nat -> Int` / `Nat -> Nat` (for integer arrays); a C loop of stores
becomes an explicit list of `(index, value)` writes applied left to
right, in the source's iteration order.  The numerical claims checked
here only move values around, so the value type Q is exact.
-/

namespace SLU

/-- Pointwise update of an array modelled as a function: `a[i] = v`. -/
def upd (a : Nat → ℚ) (i : Nat) (v : ℚ) : Nat → ℚ :=
  fun j => if j = i then v else a j

/-- Apply a list of stores `a[i] = v` left to right (C program order). -/
def writesFold (ws : List (Nat × ℚ)) (a : Nat → ℚ) : Nat → ℚ :=
  ws.foldl (fun acc w => upd acc w.1 w.2) a

/-!
## Block index algebra

Modelled from the spec: the macros `BlockNum`, `FstBlockC`, `SuperSize`,
`PROW`, `PCOL`, `PNUM`, `LBi`, `LBj`, `X_BLK`, `LSUM_BLK` and the header
sizes `XK_H`, `LSUM_H` are declared in `superlu_defs.h`, which is not
under `src/`; spec section 4.1 defines them ("Header cell is always at
`X_BLK(lk) - 1`", a one-cell header holding the global supernode
number), so `XK_H = LSUM_H = 1` here and the rest are the standard
integer-arithmetic table lookups the spec lists.
-/

/-- Header size preceding each X block (one cell, per the spec). -/
def XK_H : Nat := 1

/-- Header size preceding each lsum block (one cell, per the spec). -/
def LSUM_H : Nat := 1

/-- Supernode layout data: `xsup k` is the first row/column of supernode
    `k`, `supno i` the supernode containing global row `i` (the
    `Glu_persist_t` fields the source reads). -/
structure Glu where
  nsupers : Nat
  xsup : Nat → Nat
  supno : Nat → Nat

/-- Macro `BlockNum(i) = supno[i]`. -/
def BlockNum (g : Glu) (i : Nat) : Nat := g.supno i

/-- Macro `FstBlockC(k) = xsup[k]`. -/
def FstBlockC (g : Glu) (k : Nat) : Nat := g.xsup k

/-- Macro `SuperSize(k) = xsup[k+1] - xsup[k]`. -/
def SuperSize (g : Glu) (k : Nat) : Nat := g.xsup (k+1) - g.xsup k

/-- Macro `PROW(k,grid) = k % nprow`. -/
def PROW (k nprow : Nat) : Nat := k % nprow

/-- Macro `PCOL(k,grid) = k % npcol`. -/
def PCOL (k npcol : Nat) : Nat := k % npcol

/-- Macro `PNUM(i,j,grid) = i*npcol + j`. -/
def PNUM (i j npcol : Nat) : Nat := i * npcol + j

/-- Macro `LBi(k,grid) = k / nprow` (local block-row index). -/
def LBi (k nprow : Nat) : Nat := k / nprow

/-- Macro `LBj(k,grid) = k / npcol` (local block-column index). -/
def LBj (k npcol : Nat) : Nat := k / npcol

/-- Macro `X_BLK(lk) = ilsum[lk]*nrhs + (lk+1)*XK_H`: offset of the body
    of block `lk` in `x`, one past its header cell. -/
def X_BLK (ilsum : Nat → Nat) (nrhs lk : Nat) : Nat :=
  ilsum lk * nrhs + (lk + 1) * XK_H

/-- Macro `LSUM_BLK(lk) = ilsum[lk]*nrhs + (lk+1)*LSUM_H`. -/
def LSUM_BLK (ilsum : Nat → Nat) (nrhs lk : Nat) : Nat :=
  ilsum lk * nrhs + (lk + 1) * LSUM_H

/-- Coherence of the supernode partition: `xsup` is a strictly
    increasing enumeration of block boundaries from `0` to `n`, and
    `supno` maps each row to the block whose span contains it.  These
    are the standing properties of `Glu_persist_t` produced by the
    (out-of-scope) symbolic factorization. -/
def SupPartOK (n : Nat) (g : Glu) : Prop :=
  g.xsup 0 = 0 ∧ g.xsup g.nsupers = n ∧
  (∀ k < g.nsupers, g.xsup k < g.xsup (k+1)) ∧
  (∀ i < n, g.supno i < g.nsupers ∧ g.xsup (g.supno i) ≤ i ∧ i < g.xsup (g.supno i + 1))

instance (n : Nat) (g : Glu) : Decidable (SupPartOK n g) := by
  unfold SupPartOK; infer_instance

/-!
## Local block layout of the `x` / `lsum` work arrays

`ilsum lk` accumulates the sizes of the local blocks before `lk`
(`Llu->ilsum`, produced by the out-of-scope distribution setup), so
block `lk`'s slice of `x` is the header cell at `X_BLK(lk) - XK_H`
followed by `sz lk * nrhs` body cells.
-/

/-- Layout coherence of `ilsum` for local block sizes `sz`. -/
def IlsumLayout (sz ilsum : Nat → Nat) (nlb : Nat) : Prop :=
  ilsum 0 = 0 ∧ ∀ lk < nlb, ilsum (lk+1) = ilsum lk + sz lk

instance (sz ilsum : Nat → Nat) (nlb : Nat) : Decidable (IlsumLayout sz ilsum nlb) := by
  unfold IlsumLayout; infer_instance

/-- Index of the header cell of local block `lk`: `X_BLK(lk) - XK_H`. -/
def hdr (ilsum : Nat → Nat) (nrhs lk : Nat) : Nat := ilsum lk * nrhs + lk

/-- The body cell of block `lk` at in-block row `r`, right-hand side `j`. -/
def bodyIdx (ilsum : Nat → Nat) (nrhs lk r j s : Nat) : Nat :=
  X_BLK ilsum nrhs lk + r + j * s

/-!
## `pdReDistribute_B_to_X`

The `procs == 1` fast path (source lines 201-230) scatters `B` directly
into `x`: for each local row `i`, `irow = perm_c[perm_r[i+fst_row]]`,
`k = BlockNum(irow)`, `l = X_BLK(k)`; it stores the block header
`x[l - XK_H] = k` and then `x[l + (irow - FstBlockC(k)) + j*SuperSize(k)]
= B[i + j*ldb]` for each right-hand side `j`.

The multi-process path packs per-destination buffers, runs two
`MPI_Alltoallv` collectives, and scatters the received `(irow, values)`
pairs into `x` (source lines 298-317); the received buffers enter the
embedding as inputs.
-/

/-- Scaling and permutation vectors (`ScalePermstruct_t` fields read here). -/
structure ScalePerm where
  perm_r : Nat → Nat
  perm_c : Nat → Nat

/-- Permuted row of local row `i+fst_row`: `perm_c[perm_r[fst_row+i]]`
    ("Row number in Pc*Pr*B"). -/
def permRow (sp : ScalePerm) (fst_row i : Nat) : Nat :=
  sp.perm_c (sp.perm_r (i + fst_row))

/-- The `perm_c ∘ perm_r` composition is a permutation of the global rows
    `[0, n)` (property of the permutation vectors the solver is given). -/
def PermOK (n : Nat) (sp : ScalePerm) : Prop :=
  (∀ i < n, sp.perm_c (sp.perm_r i) < n) ∧
  ∀ i < n, ∀ i' < n, sp.perm_c (sp.perm_r i) = sp.perm_c (sp.perm_r i') → i = i'

instance (n : Nat) (sp : ScalePerm) : Decidable (PermOK n sp) := by
  unfold PermOK; infer_instance

/-- Stores to `x` of one iteration `i` of the `procs==1` loop of
    `pdReDistribute_B_to_X`: the header store, then one body store per
    right-hand side column `j` (source lines 215-228). -/
def bToX1RowWrites (g : Glu) (sp : ScalePerm) (ilsum : Nat → Nat)
    (nrhs ldb fst_row : Nat) (B : Nat → ℚ) (i : Nat) : List (Nat × ℚ) :=
  let irow := permRow sp fst_row i
  let k := BlockNum g irow
  let knsupc := SuperSize g k
  let l := X_BLK ilsum nrhs k
  (l - XK_H, (k : ℚ)) ::
    (List.range nrhs).map
      (fun j => (l + (irow - FstBlockC g k) + j * knsupc, B (i + j * ldb)))

/-- All stores of the `procs==1` branch of `pdReDistribute_B_to_X`
    (the loop `for i in [0, m_loc)` of source lines 215-228). -/
def bToX1Writes (g : Glu) (sp : ScalePerm) (ilsum : Nat → Nat)
    (m_loc nrhs ldb fst_row : Nat) (B : Nat → ℚ) : List (Nat × ℚ) :=
  (List.range m_loc).flatMap (bToX1RowWrites g sp ilsum nrhs ldb fst_row B)

/-- The `x` array after the `procs==1` branch of `pdReDistribute_B_to_X`. -/
def bToX1 (g : Glu) (sp : ScalePerm) (ilsum : Nat → Nat)
    (m_loc nrhs ldb fst_row : Nat) (B x : Nat → ℚ) : Nat → ℚ :=
  writesFold (bToX1Writes g sp ilsum m_loc nrhs ldb fst_row B) x

/-- Stores of one received `(irow, values)` entry in the multi-process
    receive-scatter of `pdReDistribute_B_to_X` (source lines 304-315):
    `k = BlockNum(irow)`, `lk = LBi(k)`, header store at `X_BLK(lk)-XK_H`,
    then the `nrhs` values read from `recv_dbuf` at offsets `jj, jj+1, …`. -/
def bToXRecvEntryWrites (g : Glu) (ilsum : Nat → Nat) (nrhs nprow : Nat)
    (recv_dbuf : Nat → ℚ) (irow jj : Nat) : List (Nat × ℚ) :=
  let k := BlockNum g irow
  let knsupc := SuperSize g k
  let lk := LBi k nprow
  let l := X_BLK ilsum nrhs lk
  (l - XK_H, (k : ℚ)) ::
    (List.range nrhs).map
      (fun j => (l + (irow - FstBlockC g k) + j * knsupc, recv_dbuf (jj + j)))

/-- Running `ii` index of the receive loop: entry `i` of sender `p`
    reads `recv_ibuf` at `Σ_{q<p} RecvCnt q + i`. -/
def recvOff (RecvCnt : Nat → Nat) (p i : Nat) : Nat :=
  ((List.range p).map RecvCnt).sum + i

/-- All stores of the multi-process receive-scatter loop of
    `pdReDistribute_B_to_X` (source lines 298-317): entry `i` of sender
    `p` reads `recv_ibuf` at the running index `ii = recvOff p i` and
    `recv_dbuf` from `jj = rdispls_nrhs p + i*nrhs`. -/
def bToXRecvWrites (g : Glu) (ilsum : Nat → Nat) (nrhs nprow procs : Nat)
    (RecvCnt rdispls_nrhs : Nat → Nat) (recv_ibuf : Nat → Nat)
    (recv_dbuf : Nat → ℚ) : List (Nat × ℚ) :=
  (List.range procs).flatMap (fun p =>
    (List.range (RecvCnt p)).flatMap (fun i =>
      bToXRecvEntryWrites g ilsum nrhs nprow recv_dbuf
        (recv_ibuf (recvOff RecvCnt p i))
        (rdispls_nrhs p + i * nrhs)))

/-- Full model of `pdReDistribute_B_to_X`: result `x` array, the number
    of MPI collective calls performed, and the `int_t` return value.
    `none` models `ABORT` on a failed buffer allocation in the
    multi-process branch (`allocOK = false`); both branches otherwise
    fall through to the single `return 0` at source line 334.  In the
    multi-process branch the received buffers (filled by the two
    `MPI_Alltoallv` calls at lines 276-281) are oracle inputs. -/
def pdReDistribute_B_to_X (g : Glu) (sp : ScalePerm) (ilsum : Nat → Nat)
    (m_loc nrhs ldb fst_row procs nprow : Nat) (allocOK : Bool)
    (RecvCnt rdispls_nrhs : Nat → Nat) (recv_ibuf : Nat → Nat)
    (recv_dbuf : Nat → ℚ) (B x : Nat → ℚ) :
    Option ((Nat → ℚ) × Nat × Int) :=
  if procs = 1 then
    some (bToX1 g sp ilsum m_loc nrhs ldb fst_row B x, 0, 0)
  else if allocOK then
    some (writesFold
      (bToXRecvWrites g ilsum nrhs nprow procs RecvCnt rdispls_nrhs
        recv_ibuf recv_dbuf) x, 2, 0)
  else none

/-!
## `pdReDistribute_X_to_B`

The `procs == 1` fast path (source lines 399-425) gathers `x` back into
`B`: for each supernode `k` and in-block row `i`,
`B[FstBlockC(k) - fst_row + i + j*ldb] = x[X_BLK(LBi(k)) + i + j*SuperSize(k)]`.
-/

/-- All stores to `B` of the `procs==1` branch of
    `pdReDistribute_X_to_B` (source lines 413-423). -/
def xToB1Writes (g : Glu) (ilsum : Nat → Nat)
    (nrhs ldb fst_row nprow : Nat) (x : Nat → ℚ) : List (Nat × ℚ) :=
  (List.range g.nsupers).flatMap (fun k =>
    let knsupc := SuperSize g k
    let lk := LBi k nprow
    let irow := FstBlockC g k
    let l := X_BLK ilsum nrhs lk
    (List.range knsupc).flatMap (fun i =>
      (List.range nrhs).map
        (fun j => (irow - fst_row + i + j * ldb, x (l + i + j * knsupc)))))

/-- The `B` array after the `procs==1` branch of `pdReDistribute_X_to_B`. -/
def xToB1 (g : Glu) (ilsum : Nat → Nat)
    (nrhs ldb fst_row nprow : Nat) (x B : Nat → ℚ) : Nat → ℚ :=
  writesFold (xToB1Writes g ilsum nrhs ldb fst_row nprow x) B

/-- Full model of `pdReDistribute_X_to_B`: result `B`, number of MPI
    collective calls, and the `int_t` return value (`return 0` at source
    line 517; `none` models `ABORT` on allocation failure).  The
    multi-process branch's received buffers are oracle inputs: entry `i`
    of the final copy-back loop (lines 499-505) places `recv_dbuf` values
    at row `recv_ibuf i - fst_row`. -/
def pdReDistribute_X_to_B (g : Glu) (ilsum : Nat → Nat)
    (m_loc nrhs ldb fst_row procs nprow : Nat) (allocOK : Bool)
    (recv_ibuf : Nat → Nat) (recv_dbuf : Nat → ℚ) (x B : Nat → ℚ) :
    Option ((Nat → ℚ) × Nat × Int) :=
  if procs = 1 then
    some (xToB1 g ilsum nrhs ldb fst_row nprow x B, 0, 0)
  else if allocOK then
    some (writesFold
      ((List.range m_loc).flatMap (fun i =>
        (List.range nrhs).map
          (fun j => (recv_ibuf i - fst_row + j * ldb, recv_dbuf (i * nrhs + j)))))
      B, 2, 0)
  else none

/-- Local size of local block row `lk` on process row `myrow`. -/
def locSz (g : Glu) (myrow nprow lk : Nat) : Nat :=
  SuperSize g (myrow + lk * nprow)

/-- Validity of a received permuted row index on this process: a global
    row whose block is owned by this process row with local index in
    range (guaranteed by the out-of-scope `pxgstrs_init` communication
    plan, which routes each row to its diagonal process). -/
def RecvRowOK (n : Nat) (g : Glu) (myrow nprow nlb irow : Nat) : Prop :=
  irow < n ∧ PROW (BlockNum g irow) nprow = myrow ∧ LBi (BlockNum g irow) nprow < nlb

instance (n : Nat) (g : Glu) (myrow nprow nlb irow : Nat) :
    Decidable (RecvRowOK n g myrow nprow nlb irow) := by
  unfold RecvRowOK; infer_instance

/-- Stores of the diagonal-solve copy-back
    `for (i=0; i<knsupc*nrhs; i++) x[ii+i] = rtemp_loc[i]` with
    `ii = X_BLK(lk)` (source lines 1291-1293 and the analogous copies in
    the other solve branches). -/
def diagSolveWrites (ilsum : Nat → Nat) (nrhs lk knsupc : Nat)
    (vals : Nat → ℚ) : List (Nat × ℚ) :=
  (List.range (knsupc * nrhs)).map (fun i => (X_BLK ilsum nrhs lk + i, vals i))

/-!
## `pdCompute_Diag_Inv`

Source lines 533-650.  For every supernode `k` whose diagonal block this
process owns, the function builds the dense triangular factors and calls
`dtrtri_` twice — first on `Linv`, then on `Uinv` — both writing their
status into the function-local variable `INFO` (lines 632-634).  The
`info` output argument of the function is never assigned.  The LAPACK
statuses enter the model as the oracles `statusL`, `statusU`.
-/

/-- State threaded through the `pdCompute_Diag_Inv` supernode loop:
    the cell `*info` points to, the local `INFO` variable, and the
    diagonal supernodes processed so far, in order. -/
structure DiagInvRun where
  infoOut : Int
  INFO : Int
  processed : List Nat

/-- One iteration `k` of the loop (source lines 599-638): on a diagonal
    block, `dtrtri_("L","U",...,&INFO)` stores `statusL k` into `INFO`
    and then `dtrtri_("U","N",...,&INFO)` overwrites it with
    `statusU k`; `s.infoOut` is never touched.  Non-diagonal iterations
    do nothing. -/
def diagInvStep (statusL statusU : Nat → Int)
    (myrow mycol nprow npcol : Nat) (s : DiagInvRun) (k : Nat) : DiagInvRun :=
  if myrow = PROW k nprow then
    if mycol = PCOL k npcol then
      let s1 : DiagInvRun := { s with INFO := statusL k }
      { s1 with INFO := statusU k, processed := s1.processed ++ [k] }
    else s
  else s

/-- Model of `pdCompute_Diag_Inv` (the `HAVE_LAPACK` build): the loop
    `for (k = 0; k < nsupers; ++k)` over `diagInvStep`, starting from
    the caller's `*info` cell (`info0`) and an indeterminate initial
    `INFO` value. -/
def pdCompute_Diag_Inv (statusL statusU : Nat → Int)
    (myrow mycol nprow npcol nsupers : Nat) (info0 INFO0 : Int) : DiagInvRun :=
  (List.range nsupers).foldl (diagInvStep statusL statusU myrow mycol nprow npcol)
    ⟨info0, INFO0, []⟩

/-!
## L-solve / U-solve setup: `frecv`, `brecv` and the combined counters

Source lines 1058-1095 (forward) and 1933-1958 (backward).  The reduction
trees enter the model as `Nat → Option Nat`: `none` is a NULL
`LRtree_ptr[lk]` / `URtree_ptr[lk]`, `some dc` a tree whose
`RdTree_GetDestCount` returns `dc`.
-/

/-- `RdTree_GetDestCount` of a possibly-NULL tree, 0 when absent. -/
def optCount : Option Nat → Nat
  | none => 0
  | some dc => dc

/-- State of the setup loop: the `frecv`/`brecv` array (allocated with
    `intCalloc_dist`, so initially zero), the accumulated
    `nfrecvmod`/`nbrecvmod`, the tree count, and the collected
    `leafsups`/`rootsups`. -/
structure TreeSetup where
  recvCnt : Nat → Nat
  nrecvmod : Nat
  nrtree : Nat
  startsups : List Nat

/-- One iteration `lk` of the setup loop (source lines 1069-1087 and
    1933-1953): a present reduction tree contributes its destination
    count to `recvCnt[lk]` and to the modification total; an absent tree
    records a start supernode (`gb = myrow + lk*nprow`) when this is its
    diagonal process and its counter starts at zero. -/
def treeSetupStep (tree : Nat → Option Nat) (mod0 : Nat → Int)
    (myrow mycol nprow npcol nsupers : Nat) (s : TreeSetup) (lk : Nat) : TreeSetup :=
  match tree lk with
  | some dc =>
      { s with recvCnt := fun i => if i = lk then dc else s.recvCnt i,
               nrecvmod := s.nrecvmod + dc,
               nrtree := s.nrtree + 1 }
  | none =>
      if myrow + lk * nprow < nsupers then
        if mycol = PCOL (myrow + lk * nprow) npcol then
          if mod0 lk = 0 then
            { s with startsups := s.startsups ++ [myrow + lk * nprow] }
          else s
        else s
      else s

/-- The whole setup loop over the local block rows. -/
def treeSetup (tree : Nat → Option Nat) (mod0 : Nat → Int)
    (myrow mycol nprow npcol nsupers nlb : Nat) : TreeSetup :=
  (List.range nlb).foldl
    (treeSetupStep tree mod0 myrow mycol nprow npcol nsupers)
    ⟨fun _ => 0, 0, 0, []⟩

/-- Step of the `procs == 1` leaf-collection loop (source lines
    1058-1067): no tree handling, `frecv` untouched. -/
def leafStep1 (fmod0 : Nat → Int) (myrow nprow nsupers : Nat)
    (l : List Nat) (lk : Nat) : List Nat :=
  if myrow + lk * nprow < nsupers then
    if fmod0 lk = 0 then l ++ [myrow + lk * nprow] else l
  else l

/-- The L-solve setup (source lines 1058-1088): the `procs == 1` branch
    collects leaves and leaves `frecv` at its `intCalloc_dist` zeros;
    the multi-process branch is the tree setup loop. -/
def lsolveSetup (procs : Nat) (LRtree : Nat → Option Nat) (fmod0 : Nat → Int)
    (myrow mycol nprow npcol nsupers nlb : Nat) : TreeSetup :=
  if procs = 1 then
    ⟨fun _ => 0, 0, 0,
      (List.range nlb).foldl (leafStep1 fmod0 myrow nprow nsupers) []⟩
  else treeSetup LRtree fmod0 myrow mycol nprow npcol nsupers nlb

/-- The combine loop `for (i = 0; i < nlb; ++i) fmod[i*aln_i] += frecv[i]`
    (source line 1095; line 1958 for `bmod`).  `fmod` is stored with a
    cache-line stride `aln_i`, accessed only at multiples of it, so the
    model indexes it by local block row directly. -/
def modCombine (mod0 : Nat → Int) (recvCnt : Nat → Nat) (nlb : Nat) : Nat → Int :=
  fun lk => if lk < nlb then mod0 lk + (recvCnt lk : Int) else mod0 lk

/-!
## `pdgstrs`: validation and control flow

Source lines 728-2477.  Validation (lines 885-892): `*info = 0`, then
`n < 0` sets `-1`, else `nrhs < 0` sets `-9`; a nonzero `*info` returns
immediately (after `pxerr_dist`, which only prints) with `B` and the
solve structures untouched.  On the valid path the function runs B→X,
the `lsum` header setup, the L-solve setup and leaf solves — and then
reaches the unconditional `MPI_Barrier(MPI_COMM_WORLD); exit(0)` at
lines 1763-1764, which terminates the process: the U-solve (lines
1814-2329) and the X→B redistribute (line 2375) are unreachable, and
the function never returns on the valid path.  (Modelled for the
default two-sided build; the `oneside` build reaches the same
`exit(0)`.)
-/

/-- What a call to `pdgstrs` did: the final `*info`, which phases
    executed, whether the call returned to its caller (as opposed to the
    process being killed by `exit`), the exit code if any, and the final
    `B` and `x` contents. -/
structure PdgstrsRun where
  info : Int
  ranBtoX : Bool
  ranLsolve : Bool
  ranUsolve : Bool
  ranXtoB : Bool
  returned : Bool
  exitCode : Option Nat
  Bout : Nat → ℚ
  xout : Nat → ℚ

/-- Control-flow model of `pdgstrs` in the `procs == 1` configuration
    (so the embedded single-process redistribute path is the one
    executed). -/
def pdgstrs (g : Glu) (sp : ScalePerm) (ilsum : Nat → Nat)
    (n nrhs : Int) (m_loc ldb fst_row : Nat) (B x : Nat → ℚ) : PdgstrsRun :=
  let info : Int := if n < 0 then -1 else if nrhs < 0 then -9 else 0
  if info ≠ 0 then
    ⟨info, false, false, false, false, true, none, B, x⟩
  else
    ⟨0, true, true, false, false, false, some 0, B,
      bToX1 g sp ilsum m_loc nrhs.toNat ldb fst_row B x⟩

/-!
## Progress-loop termination counters

Forward solve: in the `oneside` build the self-scheduled loop is
`while ( nfrecv <= nfrecvx+nfrecvmod )` (source line 1487); the
non-`oneside` build contains no forward-solve receive loop at all.
Backward solve (both builds): `for (nbrecv = 0; nbrecv < nbrecvx +
nbrecvmod; nbrecv++)` with one blocking `MPI_Recv` per iteration
(source lines 2151-2167).
-/

/-- Loop guard of the one-sided forward-solve progress loop (source line
    1487): the loop body runs again whenever this is true. -/
def lsolveOneSideGuard (nfrecv nfrecvx nfrecvmod : Nat) : Bool :=
  if nfrecv ≤ nfrecvx + nfrecvmod then true else false

/-- The backward-solve progress loop modelled as its per-iteration
    receive count: each of the `nbrecvx + nbrecvmod` iterations performs
    exactly one `MPI_Recv`. -/
def usolveRecvTotal (nbrecvx nbrecvmod : Nat) : Nat :=
  ((List.range (nbrecvx + nbrecvmod)).map (fun _ => 1)).sum

/-!
## Concrete instance for the witnesses

One supernode of size one (`n = 1`), identity permutations, `nrhs = 1`.
-/

/-- Witness instance: supernode partition of order 1. -/
def gEx : Glu := ⟨1, fun k => k, fun _ => 0⟩

/-- Witness instance: identity permutation vectors. -/
def spEx : ScalePerm := ⟨fun i => i, fun i => i⟩

/-- Witness instance: `ilsum` for one block of size one. -/
def ilEx : Nat → Nat := fun k => k

/-- Witness instance: a right-hand side. -/
def BEx : Nat → ℚ := fun i => (i : ℚ) + 1

/-- Witness instance: the uninitialized `x` buffer. -/
def xEx : Nat → ℚ := fun _ => 0

/-- Status oracle for the C5 counterexample: the triangular inversion of
    the `L` diagonal block of supernode 0 fails with status 5. -/
def statusLEx : Nat → Int := fun k => if k = 0 then 5 else 0

/-- Status oracle for the C5 counterexample: both `U` inversions
    succeed. -/
def statusUEx : Nat → Int := fun _ => 0

theorem upd_self (a : Nat → ℚ) (i : Nat) (v : ℚ) : upd a i v i = v := by
  simp [upd]

theorem upd_other (a : Nat → ℚ) (i j : Nat) (v : ℚ) (h : j ≠ i) :
    upd a i v j = a j := by
  simp [upd, h]

/-- A cell no store touches keeps its value. -/
theorem writesFold_not_written (ws : List (Nat × ℚ)) (a : Nat → ℚ) (i : Nat)
    (h : ∀ w ∈ ws, w.1 ≠ i) : writesFold ws a i = a i := by
  induction ws generalizing a with
  | nil => rfl
  | cons w ws ih =>
      have hw : w.1 ≠ i := h w (List.mem_cons_self w ws)
      have hi : upd a w.1 w.2 i = a i := upd_other a w.1 i w.2 (fun he => hw he.symm)
      have := ih (upd a w.1 w.2) (fun u hu => h u (List.mem_cons_of_mem w hu))
      simpa [writesFold, hi] using this

/-- If every store to cell `i` stores the same value `v`, and at least one
    store hits `i`, the cell ends holding `v`. -/
theorem writesFold_const_value (ws : List (Nat × ℚ)) (a : Nat → ℚ) (i : Nat) (v : ℚ)
    (hall : ∀ w ∈ ws, w.1 = i → w.2 = v) (hmem : ∃ w ∈ ws, w.1 = i) :
    writesFold ws a i = v := by
  induction ws generalizing a with
  | nil => exact absurd hmem (by simp)
  | cons w ws ih =>
      by_cases hrest : ∃ u ∈ ws, u.1 = i
      · exact ih (upd a w.1 w.2) (fun u hu => hall u (List.mem_cons_of_mem w hu)) hrest
      · rcases hmem with ⟨u, hu, hui⟩
        rcases List.mem_cons.mp hu with hu2 | hu2
        · have hv : u.2 = v := hall u hu hui
          have hnotrest : ∀ z ∈ ws, z.1 ≠ i := fun z hz he => hrest ⟨z, hz, he⟩
          have hstep : writesFold (w :: ws) a i = upd a w.1 w.2 i :=
            writesFold_not_written ws (upd a w.1 w.2) i hnotrest
          rw [hstep, ← hu2, hui, upd_self]
          exact hv.symm ▸ rfl
        · exact absurd ⟨u, hu2, hui⟩ hrest

theorem writesFold_append (l₁ l₂ : List (Nat × ℚ)) (a : Nat → ℚ) :
    writesFold (l₁ ++ l₂) a = writesFold l₂ (writesFold l₁ a) := by
  simp [writesFold, List.foldl_append]

theorem xsup_mono (n : Nat) (g : Glu) (h : SupPartOK n g) :
    ∀ {k k' : Nat}, k ≤ k' → k' ≤ g.nsupers → g.xsup k ≤ g.xsup k' := by
  intro k k' hkk hk'
  induction k' with
  | zero => simp [Nat.le_zero.mp hkk]
  | succ m ih =>
      rcases Nat.lt_or_ge k (m+1) with hlt | hge
      · have h1 : g.xsup k ≤ g.xsup m := ih (Nat.lt_succ_iff.mp hlt) (Nat.le_of_succ_le hk')
        have h2 : g.xsup m < g.xsup (m+1) := h.2.2.1 m (Nat.lt_of_succ_le hk')
        exact Nat.le_of_lt (Nat.lt_of_le_of_lt h1 h2)
      · have : k = m+1 := Nat.le_antisymm hkk hge
        simp [this]

/-- Rows tile disjointly into supernodes: a global row determines its
    block and its offset in the block. -/
theorem row_block_unique (n : Nat) (g : Glu) (h : SupPartOK n g)
    {k k' i i' : Nat} (hk : k < g.nsupers) (hk' : k' < g.nsupers)
    (hi : i < SuperSize g k) (hi' : i' < SuperSize g k')
    (he : g.xsup k + i = g.xsup k' + i') : k = k' ∧ i = i' := by
  have hfull : ∀ {a b ia ib : Nat}, a < g.nsupers → b < g.nsupers →
      ia < SuperSize g a → ib < SuperSize g b →
      g.xsup a + ia = g.xsup b + ib → a ≤ b → a = b := by
    intro a b ia ib ha hb hia hib hab hle
    by_contra hne
    have hab' : a + 1 ≤ b := Nat.lt_of_le_of_ne hle hne
    have h1 : g.xsup a + ia < g.xsup (a+1) := by
      have := h.2.2.1 a ha
      have hs : SuperSize g a = g.xsup (a+1) - g.xsup a := rfl
      omega
    have h2 : g.xsup (a+1) ≤ g.xsup b := xsup_mono n g h hab' (Nat.le_of_lt hb)
    omega
  have hkk' : k = k' := by
    rcases Nat.le_total k k' with hle | hle
    · exact hfull hk hk' hi hi' he hle
    · exact (hfull hk' hk hi' hi he.symm hle).symm
  subst hkk'
  exact ⟨rfl, by omega⟩

/-- The block containing row `xsup k + i` (with `i` inside block `k`) is
    block `k` itself. -/
theorem supno_at (n : Nat) (g : Glu) (h : SupPartOK n g)
    {k i : Nat} (hk : k < g.nsupers) (hi : i < SuperSize g k) (hn : g.xsup k + i < n) :
    g.supno (g.xsup k + i) = k := by
  obtain ⟨hks, hlb, hub⟩ := h.2.2.2 (g.xsup k + i) hn
  have hoff : g.xsup k + i = g.xsup (g.supno (g.xsup k + i)) +
      (g.xsup k + i - g.xsup (g.supno (g.xsup k + i))) := by omega
  have hsz : g.xsup k + i - g.xsup (g.supno (g.xsup k + i)) <
      SuperSize g (g.supno (g.xsup k + i)) := by
    have hs : SuperSize g (g.supno (g.xsup k + i)) =
        g.xsup (g.supno (g.xsup k + i) + 1) - g.xsup (g.supno (g.xsup k + i)) := rfl
    omega
  exact (row_block_unique n g h hks hk hsz hi hoff.symm).1

theorem hdr_eq_X_BLK_sub (ilsum : Nat → Nat) (nrhs lk : Nat) :
    X_BLK ilsum nrhs lk - XK_H = hdr ilsum nrhs lk := by
  simp [X_BLK, hdr, XK_H]

theorem X_BLK_eq_hdr_add_one (ilsum : Nat → Nat) (nrhs lk : Nat) :
    X_BLK ilsum nrhs lk = hdr ilsum nrhs lk + 1 := by
  simp [X_BLK, hdr, XK_H]; ring

theorem hdr_succ (sz ilsum : Nat → Nat) (nlb nrhs : Nat)
    (h : IlsumLayout sz ilsum nlb) {lk : Nat} (hlk : lk < nlb) :
    hdr ilsum nrhs (lk+1) = hdr ilsum nrhs lk + sz lk * nrhs + 1 := by
  have := h.2 lk hlk
  simp only [hdr, this]
  ring

theorem hdr_mono (sz ilsum : Nat → Nat) (nlb nrhs : Nat)
    (h : IlsumLayout sz ilsum nlb) :
    ∀ {a b : Nat}, a < b → b ≤ nlb → hdr ilsum nrhs a + 1 ≤ hdr ilsum nrhs b := by
  intro a b hab hb
  induction b with
  | zero => omega
  | succ m ih =>
      have hm : hdr ilsum nrhs (m+1) = hdr ilsum nrhs m + sz m * nrhs + 1 :=
        hdr_succ sz ilsum nlb nrhs h (Nat.lt_of_succ_le hb)
      rcases Nat.lt_or_ge a m with hlt | hge
      · have := ih hlt (by omega)
        omega
      · have : a = m := by omega
        subst this
        omega

theorem bodyIdx_bounds (sz ilsum : Nat → Nat) (nlb nrhs : Nat)
    (h : IlsumLayout sz ilsum nlb) {lk r j : Nat}
    (hlk : lk < nlb) (hr : r < sz lk) (hj : j < nrhs) :
    hdr ilsum nrhs lk < bodyIdx ilsum nrhs lk r j (sz lk) ∧
    bodyIdx ilsum nrhs lk r j (sz lk) < hdr ilsum nrhs (lk+1) := by
  have hx : X_BLK ilsum nrhs lk = hdr ilsum nrhs lk + 1 := X_BLK_eq_hdr_add_one ilsum nrhs lk
  have hsuc : hdr ilsum nrhs (lk+1) = hdr ilsum nrhs lk + sz lk * nrhs + 1 :=
    hdr_succ sz ilsum nlb nrhs h hlk
  constructor
  · simp [bodyIdx, hx]; omega
  · have hle : r + j * sz lk + 1 ≤ sz lk * nrhs := by
      obtain ⟨m, rfl⟩ : ∃ m, nrhs = m + 1 := ⟨nrhs - 1, by omega⟩
      have hjs : j * sz lk ≤ m * sz lk := Nat.mul_le_mul_right (sz lk) (by omega)
      have hsp : sz lk * (m+1) = m * sz lk + sz lk := by ring
      omega
    simp only [bodyIdx, hx, hsuc]
    omega

/-- Separation of slots `r + j*s` inside one block (`r < s`). -/
theorem slot_inj {s r r' j j' : Nat} (hr : r < s) (hr' : r' < s)
    (he : r + j * s = r' + j' * s) : r = r' ∧ j = j' := by
  have hs : 0 < s := by omega
  have h1 : (r + j * s) / s = j := by
    rw [Nat.add_mul_div_right r j hs, Nat.div_eq_of_lt hr]
    omega
  have h2 : (r' + j' * s) / s = j' := by
    rw [Nat.add_mul_div_right r' j' hs, Nat.div_eq_of_lt hr']
    omega
  have hj : j = j' := by rw [← h1, ← h2, he]
  subst hj
  exact ⟨by omega, rfl⟩

/-- Header cells are never body cells (over the local block range). -/
theorem hdr_ne_bodyIdx (sz ilsum : Nat → Nat) (nlb nrhs : Nat)
    (h : IlsumLayout sz ilsum nlb) {lk lk' r j : Nat}
    (hlk : lk ≤ nlb) (hlk' : lk' < nlb) (hr : r < sz lk') (hj : j < nrhs) :
    hdr ilsum nrhs lk ≠ bodyIdx ilsum nrhs lk' r j (sz lk') := by
  obtain ⟨hlo, hhi⟩ := bodyIdx_bounds sz ilsum nlb nrhs h hlk' hr hj
  rcases Nat.le_total lk lk' with hle | hle
  · rcases Nat.eq_or_lt_of_le hle with heq | hlt
    · subst heq; omega
    · have := hdr_mono sz ilsum nlb nrhs h hlt (Nat.le_of_lt hlk')
      omega
  · rcases Nat.eq_or_lt_of_le hle with heq | hlt
    · subst heq; omega
    · rcases (by omega : lk' + 1 = lk ∨ lk' + 1 < lk) with heq | hlt2
      · rw [← heq]; omega
      · have := hdr_mono sz ilsum nlb nrhs h hlt2 hlk
        omega

/-- Distinct headers have distinct cells. -/
theorem hdr_inj (sz ilsum : Nat → Nat) (nlb nrhs : Nat)
    (h : IlsumLayout sz ilsum nlb) {lk lk' : Nat}
    (hlk : lk ≤ nlb) (hlk' : lk' ≤ nlb)
    (he : hdr ilsum nrhs lk = hdr ilsum nrhs lk') : lk = lk' := by
  rcases Nat.lt_trichotomy lk lk' with hlt | heq | hlt
  · have := hdr_mono sz ilsum nlb nrhs h hlt hlk'
    omega
  · exact heq
  · have := hdr_mono sz ilsum nlb nrhs h hlt hlk
    omega

/-- Body cells of the `x` array are globally distinct across
    `(block, in-block row, right-hand side)` triples. -/
theorem bodyIdx_inj (sz ilsum : Nat → Nat) (nlb nrhs : Nat)
    (h : IlsumLayout sz ilsum nlb) {lk lk' r r' j j' : Nat}
    (hlk : lk < nlb) (hlk' : lk' < nlb)
    (hr : r < sz lk) (hr' : r' < sz lk') (hj : j < nrhs) (hj' : j' < nrhs)
    (he : bodyIdx ilsum nrhs lk r j (sz lk) = bodyIdx ilsum nrhs lk' r' j' (sz lk')) :
    lk = lk' ∧ r = r' ∧ j = j' := by
  have hkk : lk = lk' := by
    by_contra hne
    rcases Nat.lt_or_ge lk lk' with hlt | hge
    · obtain ⟨_, hhi⟩ := bodyIdx_bounds sz ilsum nlb nrhs h hlk hr hj
      obtain ⟨hlo', _⟩ := bodyIdx_bounds sz ilsum nlb nrhs h hlk' hr' hj'
      have hmono : hdr ilsum nrhs (lk+1) ≤ hdr ilsum nrhs lk' := by
        rcases (by omega : lk + 1 = lk' ∨ lk + 1 < lk') with heq | hlt2
        · rw [heq]
        · exact Nat.le_of_succ_le (hdr_mono sz ilsum nlb nrhs h hlt2 (Nat.le_of_lt hlk'))
      omega
    · have hlt : lk' < lk := by omega
      obtain ⟨_, hhi'⟩ := bodyIdx_bounds sz ilsum nlb nrhs h hlk' hr' hj'
      obtain ⟨hlo, _⟩ := bodyIdx_bounds sz ilsum nlb nrhs h hlk hr hj
      have hmono : hdr ilsum nrhs (lk'+1) ≤ hdr ilsum nrhs lk := by
        rcases (by omega : lk' + 1 = lk ∨ lk' + 1 < lk) with heq | hlt2
        · rw [heq]
        · exact Nat.le_of_succ_le (hdr_mono sz ilsum nlb nrhs h hlt2 (Nat.le_of_lt hlk))
      omega
  subst hkk
  have : r + j * sz lk = r' + j' * sz lk := by
    simp only [bodyIdx] at he
    omega
  obtain ⟨h1, h2⟩ := slot_inj hr hr' this
  exact ⟨rfl, h1, h2⟩

/-!
## Value lemmas for the single-process redistribute path
-/

/-- Facts about a global row `row < n`: its block is in range, starts at
    or before `row`, and `row`'s offset is inside the block. -/
theorem row_facts (n : Nat) (g : Glu) (hpart : SupPartOK n g)
    {row : Nat} (hrow : row < n) :
    BlockNum g row < g.nsupers ∧ FstBlockC g (BlockNum g row) ≤ row ∧
    row - FstBlockC g (BlockNum g row) < SuperSize g (BlockNum g row) := by
  obtain ⟨h1, h2, h3⟩ := hpart.2.2.2 row hrow
  refine ⟨h1, h2, ?_⟩
  have hs : SuperSize g (g.supno row) = g.xsup (g.supno row + 1) - g.xsup (g.supno row) := rfl
  simp only [BlockNum, FstBlockC]
  omega

/-- After the `procs==1` scatter, the header cell of the block receiving
    local row `i` holds the global block number. -/
theorem bToX1_header (n : Nat) (g : Glu) (sp : ScalePerm) (ilsum : Nat → Nat)
    (m_loc nrhs ldb fst_row : Nat) (B x : Nat → ℚ)
    (hpart : SupPartOK n g) (hlay : IlsumLayout (SuperSize g) ilsum g.nsupers)
    (hperm : PermOK n sp) (hm : fst_row + m_loc ≤ n)
    {i : Nat} (hi : i < m_loc) :
    bToX1 g sp ilsum m_loc nrhs ldb fst_row B x
      (X_BLK ilsum nrhs (BlockNum g (permRow sp fst_row i)) - XK_H)
      = ((BlockNum g (permRow sp fst_row i) : Nat) : ℚ) := by
  have hrow : permRow sp fst_row i < n := hperm.1 _ (by omega)
  obtain ⟨hk0, _, _⟩ := row_facts n g hpart hrow
  rw [hdr_eq_X_BLK_sub]
  apply writesFold_const_value
  · intro w hw hwi
    simp only [bToX1Writes, List.mem_flatMap, List.mem_range] at hw
    obtain ⟨i', hi', hw⟩ := hw
    have hrow' : permRow sp fst_row i' < n := hperm.1 _ (by omega)
    obtain ⟨hk', hlb', hr'⟩ := row_facts n g hpart hrow'
    simp only [bToX1RowWrites, List.mem_cons, List.mem_map, List.mem_range] at hw
    rcases hw with hw | ⟨j, hj, hw⟩
    · subst hw
      simp only [hdr_eq_X_BLK_sub] at hwi
      have : BlockNum g (permRow sp fst_row i') = BlockNum g (permRow sp fst_row i) :=
        hdr_inj (SuperSize g) ilsum g.nsupers nrhs hlay
          (Nat.le_of_lt hk') (Nat.le_of_lt hk0) hwi
      simp [this]
    · exfalso
      rw [← hw] at hwi
      simp only at hwi
      exact hdr_ne_bodyIdx (SuperSize g) ilsum g.nsupers nrhs hlay
        (Nat.le_of_lt hk0) hk' hr' hj hwi.symm
  · refine ⟨(X_BLK ilsum nrhs (BlockNum g (permRow sp fst_row i)) - XK_H,
      ((BlockNum g (permRow sp fst_row i) : Nat) : ℚ)), ?_, ?_⟩
    · simp only [bToX1Writes, List.mem_flatMap, List.mem_range]
      exact ⟨i, hi, by simp [bToX1RowWrites]⟩
    · exact hdr_eq_X_BLK_sub ilsum nrhs _

/-- After the `procs==1` scatter, the body cell for local row `i` and
    right-hand side `j` holds `B[i + j*ldb]`. -/
theorem bToX1_body (n : Nat) (g : Glu) (sp : ScalePerm) (ilsum : Nat → Nat)
    (m_loc nrhs ldb fst_row : Nat) (B x : Nat → ℚ)
    (hpart : SupPartOK n g) (hlay : IlsumLayout (SuperSize g) ilsum g.nsupers)
    (hperm : PermOK n sp) (hm : fst_row + m_loc ≤ n)
    {i j : Nat} (hi : i < m_loc) (hj : j < nrhs) :
    bToX1 g sp ilsum m_loc nrhs ldb fst_row B x
      (X_BLK ilsum nrhs (BlockNum g (permRow sp fst_row i)) +
        (permRow sp fst_row i - FstBlockC g (BlockNum g (permRow sp fst_row i))) +
        j * SuperSize g (BlockNum g (permRow sp fst_row i)))
      = B (i + j * ldb) := by
  have hrow : permRow sp fst_row i < n := hperm.1 _ (by omega)
  obtain ⟨hk0, hlb0, hr0⟩ := row_facts n g hpart hrow
  apply writesFold_const_value
  · intro w hw hwi
    simp only [bToX1Writes, List.mem_flatMap, List.mem_range] at hw
    obtain ⟨i', hi', hw⟩ := hw
    have hrow' : permRow sp fst_row i' < n := hperm.1 _ (by omega)
    obtain ⟨hk', hlb', hr'⟩ := row_facts n g hpart hrow'
    simp only [bToX1RowWrites, List.mem_cons, List.mem_map, List.mem_range] at hw
    rcases hw with hw | ⟨j', hj', hw⟩
    · exfalso
      subst hw
      simp only [hdr_eq_X_BLK_sub] at hwi
      exact hdr_ne_bodyIdx (SuperSize g) ilsum g.nsupers nrhs hlay
        (Nat.le_of_lt hk') hk0 hr0 hj hwi
    · rw [← hw] at hwi ⊢
      simp only at hwi ⊢
      obtain ⟨hkk, hrr, hjj⟩ := bodyIdx_inj (SuperSize g) ilsum g.nsupers nrhs hlay
        hk' hk0 hr' hr0 hj' hj hwi
      have hrowe : permRow sp fst_row i' = permRow sp fst_row i := by
        have e1 : FstBlockC g (BlockNum g (permRow sp fst_row i')) =
            FstBlockC g (BlockNum g (permRow sp fst_row i)) := by rw [hkk]
        omega
      have hie : i' = i := by
        have := hperm.2 (i' + fst_row) (by omega) (i + fst_row) (by omega) ?_
        · omega
        · simpa [permRow] using hrowe
      simp [hie, hjj]
  · refine ⟨(X_BLK ilsum nrhs (BlockNum g (permRow sp fst_row i)) +
        (permRow sp fst_row i - FstBlockC g (BlockNum g (permRow sp fst_row i))) +
        j * SuperSize g (BlockNum g (permRow sp fst_row i)), B (i + j * ldb)), ?_, rfl⟩
    simp only [bToX1Writes, List.mem_flatMap, List.mem_range]
    refine ⟨i, hi, ?_⟩
    simp only [bToX1RowWrites, List.mem_cons, List.mem_map, List.mem_range]
    exact Or.inr ⟨j, hj, rfl⟩

/-- Distinct local rows scatter to distinct body cells of `x`. -/
theorem bToX1_addr_inj (n : Nat) (g : Glu) (sp : ScalePerm) (ilsum : Nat → Nat)
    (nrhs fst_row : Nat)
    (hpart : SupPartOK n g) (hlay : IlsumLayout (SuperSize g) ilsum g.nsupers)
    (hperm : PermOK n sp)
    {i i' j j' : Nat} (hi : i + fst_row < n) (hi' : i' + fst_row < n)
    (hj : j < nrhs) (hj' : j' < nrhs) (hne : i ≠ i') :
    X_BLK ilsum nrhs (BlockNum g (permRow sp fst_row i)) +
      (permRow sp fst_row i - FstBlockC g (BlockNum g (permRow sp fst_row i))) +
      j * SuperSize g (BlockNum g (permRow sp fst_row i)) ≠
    X_BLK ilsum nrhs (BlockNum g (permRow sp fst_row i')) +
      (permRow sp fst_row i' - FstBlockC g (BlockNum g (permRow sp fst_row i'))) +
      j' * SuperSize g (BlockNum g (permRow sp fst_row i')) := by
  intro he
  have hrow : permRow sp fst_row i < n := hperm.1 _ hi
  have hrow' : permRow sp fst_row i' < n := hperm.1 _ hi'
  obtain ⟨hk0, hlb0, hr0⟩ := row_facts n g hpart hrow
  obtain ⟨hk', hlb', hr'⟩ := row_facts n g hpart hrow'
  obtain ⟨hkk, hrr, hjj⟩ := bodyIdx_inj (SuperSize g) ilsum g.nsupers nrhs hlay
    hk0 hk' hr0 hr' hj hj' he
  have hrowe : permRow sp fst_row i = permRow sp fst_row i' := by
    have e1 : FstBlockC g (BlockNum g (permRow sp fst_row i)) =
        FstBlockC g (BlockNum g (permRow sp fst_row i')) := by rw [hkk]
    omega
  have : i + fst_row = i' + fst_row :=
    hperm.2 (i + fst_row) hi (i' + fst_row) hi' (by simpa [permRow] using hrowe)
  omega

/-- A row inside a block is below `n`. -/
theorem row_lt_n (n : Nat) (g : Glu) (hpart : SupPartOK n g)
    {k i : Nat} (hk : k < g.nsupers) (hi : i < SuperSize g k) :
    g.xsup k + i < n := by
  have h1 : g.xsup k + i < g.xsup (k+1) := by
    have hs : SuperSize g k = g.xsup (k+1) - g.xsup k := rfl
    have := hpart.2.2.1 k hk
    omega
  have h2 : g.xsup (k+1) ≤ g.xsup g.nsupers :=
    xsup_mono n g hpart (Nat.succ_le_of_lt hk) (Nat.le_refl _)
  have h3 := hpart.2.1
  omega

/-- Round trip through the two single-process redistributors: the value
    of local row `i` of `B` reappears, after `B→X` then `X→B`, at row
    `perm_c[perm_r[i]]` of `B` (with `fst_row = 0`, `m_loc = n`,
    `Pr = Pc = 1`). -/
theorem roundTrip1 (n : Nat) (g : Glu) (sp : ScalePerm) (ilsum : Nat → Nat)
    (nrhs ldb : Nat) (B x : Nat → ℚ)
    (hpart : SupPartOK n g) (hlay : IlsumLayout (SuperSize g) ilsum g.nsupers)
    (hperm : PermOK n sp) (hldb : n ≤ ldb)
    {i j : Nat} (hi : i < n) (hj : j < nrhs) :
    xToB1 g ilsum nrhs ldb 0 1 (bToX1 g sp ilsum n nrhs ldb 0 B x) B
      (permRow sp 0 i + j * ldb) = B (i + j * ldb) := by
  have hrow : permRow sp 0 i < n := hperm.1 i hi
  obtain ⟨hk0, hlb0, hr0⟩ := row_facts n g hpart hrow
  apply writesFold_const_value
  · intro w hw hwi
    simp only [xToB1Writes, List.mem_flatMap, List.mem_range, List.mem_map] at hw
    obtain ⟨k', hk', i', hi', j', hj', hw⟩ := hw
    rw [← hw] at hwi ⊢
    simp only [FstBlockC, Nat.sub_zero] at hwi ⊢
    have hrown : g.xsup k' + i' < n := row_lt_n n g hpart hk' hi'
    have hslots : g.xsup k' + i' = permRow sp 0 i ∧ j' = j := by
      have := slot_inj (s := ldb) (by omega) (by omega)
        (by omega : (g.xsup k' + i') + j' * ldb = permRow sp 0 i + j * ldb)
      exact this
    have hexp : permRow sp 0 i =
        g.xsup (BlockNum g (permRow sp 0 i)) +
          (permRow sp 0 i - FstBlockC g (BlockNum g (permRow sp 0 i))) := by
      simp only [FstBlockC] at hlb0 ⊢
      omega
    obtain ⟨hke, hie⟩ := row_block_unique n g hpart hk' hk0 hi' hr0
      (hslots.1.trans hexp)
    rw [hke, hie, hslots.2]
    simp only [LBi, Nat.div_one]
    exact bToX1_body n g sp ilsum n nrhs ldb 0 B x hpart hlay hperm
      (by omega) hi hj
  · refine ⟨(g.xsup (BlockNum g (permRow sp 0 i)) - 0 +
        (permRow sp 0 i - FstBlockC g (BlockNum g (permRow sp 0 i))) + j * ldb,
      bToX1 g sp ilsum n nrhs ldb 0 B x
        (X_BLK ilsum nrhs (LBi (BlockNum g (permRow sp 0 i)) 1) +
          (permRow sp 0 i - FstBlockC g (BlockNum g (permRow sp 0 i))) +
          j * SuperSize g (BlockNum g (permRow sp 0 i)))), ?_, ?_⟩
    · simp only [xToB1Writes, List.mem_flatMap, List.mem_range, List.mem_map]
      exact ⟨BlockNum g (permRow sp 0 i), hk0, permRow sp 0 i - FstBlockC g (BlockNum g (permRow sp 0 i)), hr0, j, hj, rfl⟩
    · simp only [FstBlockC, Nat.sub_zero] at hlb0 ⊢
      omega

/-!
## Header-cell facts (claim background for the `x` block headers)
-/

/-- A block owned by process row `myrow` is recovered from its local
    block-row index: `myrow + LBi(k)*nprow = k` when `PROW(k) = myrow`. -/
theorem gb_of_PROW {k myrow nprow : Nat} (h : PROW k nprow = myrow) :
    myrow + LBi k nprow * nprow = k := by
  simp only [PROW] at h
  simp only [LBi]
  have h2 : k / nprow * nprow + k % nprow = k := Nat.div_add_mod' k nprow
  omega

/-- After the multi-process receive-scatter of `pdReDistribute_B_to_X`,
    the header cell of every block that received at least one row holds
    the global block number. -/
theorem bToXRecv_header (n : Nat) (g : Glu) (ilsum : Nat → Nat)
    (nrhs nprow procs myrow nlb : Nat)
    (RecvCnt rdispls_nrhs : Nat → Nat) (recv_ibuf : Nat → Nat) (recv_dbuf : Nat → ℚ)
    (x : Nat → ℚ)
    (hpart : SupPartOK n g)
    (hlay : IlsumLayout (locSz g myrow nprow) ilsum nlb)
    (hrecv : ∀ p < procs, ∀ i < RecvCnt p,
      RecvRowOK n g myrow nprow nlb (recv_ibuf (recvOff RecvCnt p i)))
    {k : Nat}
    (hk : ∃ p < procs, ∃ i < RecvCnt p,
      BlockNum g (recv_ibuf (recvOff RecvCnt p i)) = k) :
    writesFold (bToXRecvWrites g ilsum nrhs nprow procs RecvCnt rdispls_nrhs
        recv_ibuf recv_dbuf) x
      (X_BLK ilsum nrhs (LBi k nprow) - XK_H) = ((k : Nat) : ℚ) := by
  obtain ⟨p0, hp0, i0, hi0, hbn0⟩ := hk
  obtain ⟨hrn0, hpr0, hlk0⟩ := hrecv p0 hp0 i0 hi0
  rw [hbn0] at hpr0 hlk0
  rw [hdr_eq_X_BLK_sub]
  apply writesFold_const_value
  · intro w hw hwi
    simp only [bToXRecvWrites, List.mem_flatMap, List.mem_range] at hw
    obtain ⟨p, hp, i, hi, hw⟩ := hw
    obtain ⟨hrn, hpr, hlk⟩ := hrecv p hp i hi
    obtain ⟨hkb, hfb, hrb⟩ := row_facts n g hpart hrn
    have hsz : SuperSize g (BlockNum g (recv_ibuf (recvOff RecvCnt p i))) =
        locSz g myrow nprow (LBi (BlockNum g (recv_ibuf (recvOff RecvCnt p i))) nprow) := by
      simp only [locSz]
      rw [gb_of_PROW hpr]
    simp only [bToXRecvEntryWrites, List.mem_cons, List.mem_map, List.mem_range] at hw
    rcases hw with hw | ⟨j, hj, hw⟩
    · subst hw
      simp only [hdr_eq_X_BLK_sub] at hwi
      have hlke : LBi (BlockNum g (recv_ibuf (recvOff RecvCnt p i))) nprow = LBi k nprow :=
        hdr_inj (locSz g myrow nprow) ilsum nlb nrhs hlay
          (Nat.le_of_lt hlk) (Nat.le_of_lt hlk0) hwi
      have : BlockNum g (recv_ibuf (recvOff RecvCnt p i)) = k := by
        have e1 := gb_of_PROW hpr
        have e2 := gb_of_PROW hpr0
        rw [← e1, ← e2, hlke]
      simp [this]
    · exfalso
      rw [← hw] at hwi
      simp only at hwi
      rw [hsz] at hwi
      exact hdr_ne_bodyIdx (locSz g myrow nprow) ilsum nlb nrhs hlay
        (Nat.le_of_lt hlk0) hlk (by rw [← hsz]; exact hrb) hj hwi.symm
  · refine ⟨(X_BLK ilsum nrhs
        (LBi (BlockNum g (recv_ibuf (recvOff RecvCnt p0 i0))) nprow) - XK_H,
      ((BlockNum g (recv_ibuf (recvOff RecvCnt p0 i0)) : Nat) : ℚ)), ?_, ?_⟩
    · simp only [bToXRecvWrites, List.mem_flatMap, List.mem_range]
      refine ⟨p0, hp0, i0, hi0, ?_⟩
      simp [bToXRecvEntryWrites]
    · rw [hbn0]
      exact hdr_eq_X_BLK_sub ilsum nrhs _

/-- Any sequence of stores into body slices of local blocks leaves every
    header cell of `x` unchanged: the solve kernels (diagonal GEMM copy,
    `lsum`-fold into `x`) write only body cells, so the headers written
    by `pdReDistribute_B_to_X` persist. -/
theorem bodyWrites_preserve_hdr (sz ilsum : Nat → Nat) (nlb nrhs : Nat)
    (h : IlsumLayout sz ilsum nlb) (ws : List (Nat × ℚ)) (a : Nat → ℚ)
    (hws : ∀ w ∈ ws, ∃ lk, lk < nlb ∧ ∃ r, r < sz lk ∧ ∃ j, j < nrhs ∧
      w.1 = bodyIdx ilsum nrhs lk r j (sz lk))
    {lk : Nat} (hlk : lk ≤ nlb) :
    writesFold ws a (hdr ilsum nrhs lk) = a (hdr ilsum nrhs lk) :=
  writesFold_not_written ws a _ (fun w hw => by
    obtain ⟨lk', hlk', r, hr, j, hj, he⟩ := hws w hw
    rw [he]
    intro hc
    exact hdr_ne_bodyIdx sz ilsum nlb nrhs h hlk hlk' hr hj hc.symm)

/-- The diagonal-solve copy-back writes only body cells of its block. -/
theorem diagSolveWrites_body (sz ilsum : Nat → Nat) (nlb nrhs : Nat)
    {lk knsupc : Nat} (hlk : lk < nlb) (hkn : knsupc = sz lk) (vals : Nat → ℚ) :
    ∀ w ∈ diagSolveWrites ilsum nrhs lk knsupc vals,
      ∃ lk', lk' < nlb ∧ ∃ r, r < sz lk' ∧ ∃ j, j < nrhs ∧
        w.1 = bodyIdx ilsum nrhs lk' r j (sz lk') := by
  intro w hw
  simp only [diagSolveWrites, List.mem_map, List.mem_range] at hw
  obtain ⟨i, hi, hw⟩ := hw
  subst hkn
  have hk0 : 0 < sz lk := by
    by_contra hz
    simp [Nat.le_zero.mp (Nat.le_of_not_lt hz)] at hi
  refine ⟨lk, hlk, i % sz lk, Nat.mod_lt i hk0, i / sz lk, ?_, ?_⟩
  · rw [Nat.div_lt_iff_lt_mul hk0]
    rw [Nat.mul_comm]
    exact hi
  · rw [← hw]
    simp only [bodyIdx]
    have := Nat.mod_add_div' i (sz lk)
    omega

/-- After the `procs==1` scatter with a full permutation of `[0,n)`,
    every block header holds its global block number. -/
theorem bToX1_header_all (n : Nat) (g : Glu) (sp : ScalePerm) (ilsum : Nat → Nat)
    (nrhs ldb : Nat) (B x : Nat → ℚ)
    (hpart : SupPartOK n g) (hlay : IlsumLayout (SuperSize g) ilsum g.nsupers)
    (hperm : PermOK n sp) (hsurj : ∀ r < n, ∃ i, i < n ∧ permRow sp 0 i = r)
    {k : Nat} (hk : k < g.nsupers) :
    bToX1 g sp ilsum n nrhs ldb 0 B x (X_BLK ilsum nrhs k - XK_H) = ((k : Nat) : ℚ) := by
  have hpos : 0 < SuperSize g k := by
    have := hpart.2.2.1 k hk
    simp only [SuperSize]
    omega
  have hxk : g.xsup k < n := by
    have := row_lt_n n g hpart hk hpos
    omega
  obtain ⟨i, hi, hrow⟩ := hsurj (g.xsup k) hxk
  have hbn : BlockNum g (permRow sp 0 i) = k := by
    rw [hrow]
    have := supno_at n g hpart hk hpos (by omega : g.xsup k + 0 < n)
    simpa using this
  have := bToX1_header n g sp ilsum n nrhs ldb 0 B x hpart hlay hperm
    (by omega) hi
  rw [hbn] at this
  exact this

theorem diagInv_foldl_infoOut (statusL statusU : Nat → Int)
    (myrow mycol nprow npcol : Nat) (l : List Nat) (s : DiagInvRun) :
    (l.foldl (diagInvStep statusL statusU myrow mycol nprow npcol) s).infoOut =
      s.infoOut := by
  induction l generalizing s with
  | nil => rfl
  | cons k l ih =>
      rw [List.foldl_cons, ih]
      simp only [diagInvStep]
      split
      · split
        · rfl
        · rfl
      · rfl

/-- `pdCompute_Diag_Inv` never writes its `info` output argument: the
    cell keeps its caller-side value whatever statuses `dtrtri_`
    returns. -/
theorem pdCompute_Diag_Inv_infoOut (statusL statusU : Nat → Int)
    (myrow mycol nprow npcol nsupers : Nat) (info0 INFO0 : Int) :
    (pdCompute_Diag_Inv statusL statusU myrow mycol nprow npcol nsupers
      info0 INFO0).infoOut = info0 :=
  diagInv_foldl_infoOut statusL statusU myrow mycol nprow npcol _ _

theorem diagInv_foldl_processed (statusL statusU : Nat → Int)
    (myrow mycol nprow npcol : Nat) (l : List Nat) (s : DiagInvRun) :
    (l.foldl (diagInvStep statusL statusU myrow mycol nprow npcol) s).processed =
      s.processed ++ l.filter
        (fun k => decide (myrow = PROW k nprow) && decide (mycol = PCOL k npcol)) := by
  induction l generalizing s with
  | nil => simp
  | cons k l ih =>
      rw [List.foldl_cons, ih]
      by_cases h1 : myrow = PROW k nprow
      · by_cases h2 : mycol = PCOL k npcol
        · simp [diagInvStep, h1, h2, List.filter]
        · simp [diagInvStep, h1, h2, List.filter]
      · simp [diagInvStep, h1, List.filter]

/-- The loop of `pdCompute_Diag_Inv` runs over all supernodes whatever
    statuses the inversions return: the processed list is exactly the
    diagonal supernodes of `[0, nsupers)`, independent of `statusL` and
    `statusU`. -/
theorem pdCompute_Diag_Inv_processed (statusL statusU : Nat → Int)
    (myrow mycol nprow npcol nsupers : Nat) (info0 INFO0 : Int) :
    (pdCompute_Diag_Inv statusL statusU myrow mycol nprow npcol nsupers
      info0 INFO0).processed =
    (List.range nsupers).filter
      (fun k => decide (myrow = PROW k nprow) && decide (mycol = PCOL k npcol)) := by
  rw [pdCompute_Diag_Inv, diagInv_foldl_processed]
  rfl

theorem treeSetupStep_recvCnt_other (tree : Nat → Option Nat) (mod0 : Nat → Int)
    (myrow mycol nprow npcol nsupers : Nat) (s : TreeSetup) {m lk : Nat}
    (hne : lk ≠ m) :
    (treeSetupStep tree mod0 myrow mycol nprow npcol nsupers s m).recvCnt lk =
      s.recvCnt lk := by
  cases htree : tree m with
  | some dc => simp [treeSetupStep, htree, hne]
  | none =>
      simp only [treeSetupStep, htree]
      split_ifs <;> rfl

theorem treeSetupStep_recvCnt_none (tree : Nat → Option Nat) (mod0 : Nat → Int)
    (myrow mycol nprow npcol nsupers : Nat) (s : TreeSetup) {m : Nat}
    (htree : tree m = none) (lk : Nat) :
    (treeSetupStep tree mod0 myrow mycol nprow npcol nsupers s m).recvCnt lk =
      s.recvCnt lk := by
  simp only [treeSetupStep, htree]
  split_ifs <;> rfl

theorem treeSetup_foldl_recvCnt (tree : Nat → Option Nat) (mod0 : Nat → Int)
    (myrow mycol nprow npcol nsupers : Nat) :
    ∀ (m : Nat) (s0 : TreeSetup) (lk : Nat),
      ((List.range m).foldl
        (treeSetupStep tree mod0 myrow mycol nprow npcol nsupers) s0).recvCnt lk =
      if lk < m then
        (match tree lk with
         | some dc => dc
         | none => s0.recvCnt lk)
      else s0.recvCnt lk := by
  intro m
  induction m with
  | zero => intro s0 lk; simp
  | succ m ih =>
      intro s0 lk
      rw [List.range_succ, List.foldl_append, List.foldl_cons, List.foldl_nil]
      rcases Nat.lt_trichotomy lk m with hlt | heq | hgt
      · rw [treeSetupStep_recvCnt_other tree mod0 myrow mycol nprow npcol nsupers _
            (by omega : lk ≠ m)]
        rw [ih s0 lk, if_pos hlt, if_pos (show lk < m + 1 by omega)]
      · subst heq
        have hstep : (treeSetupStep tree mod0 myrow mycol nprow npcol nsupers
            ((List.range lk).foldl
              (treeSetupStep tree mod0 myrow mycol nprow npcol nsupers) s0) lk).recvCnt lk =
            (match tree lk with
             | some dc => dc
             | none => ((List.range lk).foldl
                 (treeSetupStep tree mod0 myrow mycol nprow npcol nsupers) s0).recvCnt lk) := by
          cases htree : tree lk with
          | some dc => simp [treeSetupStep, htree]
          | none =>
              rw [treeSetupStep_recvCnt_none tree mod0 myrow mycol nprow npcol nsupers _ htree lk]
        rw [hstep]
        cases htree : tree lk with
        | some dc => rw [if_pos (show lk < lk + 1 by omega)]
        | none =>
            rw [ih s0 lk, if_neg (show ¬ lk < lk by omega),
              if_pos (show lk < lk + 1 by omega)]
      · rw [treeSetupStep_recvCnt_other tree mod0 myrow mycol nprow npcol nsupers _
            (by omega : lk ≠ m)]
        rw [ih s0 lk, if_neg (show ¬ lk < m by omega),
          if_neg (show ¬ lk < m + 1 by omega)]

/-- The `frecv`/`brecv` entry of each local block row after the setup
    loops: the destination count of the reduction tree, zero when the
    tree is NULL. -/
theorem treeSetup_recvCnt (tree : Nat → Option Nat) (mod0 : Nat → Int)
    (myrow mycol nprow npcol nsupers nlb : Nat) {lk : Nat} (hlk : lk < nlb) :
    (treeSetup tree mod0 myrow mycol nprow npcol nsupers nlb).recvCnt lk =
      optCount (tree lk) := by
  rw [treeSetup, treeSetup_foldl_recvCnt, if_pos hlk]
  cases tree lk with
  | some dc => rfl
  | none => rfl

theorem sum_map_one (t : Nat) : ((List.range t).map (fun _ => (1 : Nat))).sum = t := by
  induction t with
  | zero => rfl
  | succ m ih => rw [List.range_succ, List.map_append, List.sum_append, ih]; rfl

theorem usolveRecvTotal_eq (nbrecvx nbrecvmod : Nat) :
    usolveRecvTotal nbrecvx nbrecvmod = nbrecvx + nbrecvmod := by
  rw [usolveRecvTotal, sum_map_one]

/-!
## The claims
-/

/-- C2: composing `pdReDistribute_B_to_X` with `pdReDistribute_X_to_B`
    (the `Pr*Pc == 1` path, where `fst_row = 0` and `m_loc = n`) is the
    identity on the numerical values of `B` up to the row permutation
    `irow = perm_c[perm_r[fst_row+i]]`: the value `B[i + j*ldb]` ends at
    row `irow` of the final `B`, and the row map is injective, so each
    value appears exactly once. -/
theorem claim_roundtrip_identity (n : Nat) (g : Glu) (sp : ScalePerm)
    (ilsum : Nat → Nat) (nrhs ldb : Nat) (B x : Nat → ℚ)
    (hpart : SupPartOK n g) (hlay : IlsumLayout (SuperSize g) ilsum g.nsupers)
    (hperm : PermOK n sp) (hldb : n ≤ ldb) :
    (∀ i < n, ∀ j < nrhs,
      xToB1 g ilsum nrhs ldb 0 1 (bToX1 g sp ilsum n nrhs ldb 0 B x) B
        (permRow sp 0 i + j * ldb) = B (i + j * ldb)) ∧
    (∀ i < n, ∀ i' < n, permRow sp 0 i = permRow sp 0 i' → i = i') := by
  constructor
  · intro i hi j hj
    exact roundTrip1 n g sp ilsum nrhs ldb B x hpart hlay hperm hldb hi hj
  · intro i hi i' hi' he
    exact hperm.2 i hi i' hi' (by simpa [permRow] using he)

/-- Witness for C2 at the concrete instance. -/
theorem claim_roundtrip_identity_witness :
    (∀ i < 1, ∀ j < 1,
      xToB1 gEx ilEx 1 1 0 1 (bToX1 gEx spEx ilEx 1 1 1 0 BEx xEx) BEx
        (permRow spEx 0 i + j * 1) = BEx (i + j * 1)) ∧
    (∀ i < 1, ∀ i' < 1, permRow spEx 0 i = permRow spEx 0 i' → i = i') :=
  claim_roundtrip_identity 1 gEx spEx ilEx 1 1 BEx xEx
    (by decide) (by decide) (by decide) (by decide)

/-- C3: when `Pr*Pc == 1`, `pdReDistribute_B_to_X` performs no MPI
    communication (zero collective calls; the model returns the pure
    scatter), stores `B[i + j*ldb]` into
    `x[X_BLK(k) + (irow - FstBlockC(k)) + j*SuperSize(k)]` with
    `irow = perm_c[perm_r[fst_row+i]]`, `k = BlockNum(irow)`, writes the
    header `x[X_BLK(k) - XK_H] = k` (`XK_H = 1`), and distinct rows `i`
    write distinct `x` cells. -/
theorem claim_bToX_single_process (n : Nat) (g : Glu) (sp : ScalePerm)
    (ilsum : Nat → Nat) (m_loc nrhs ldb fst_row nprow : Nat) (allocOK : Bool)
    (RecvCnt rdispls_nrhs : Nat → Nat) (recv_ibuf : Nat → Nat)
    (recv_dbuf : Nat → ℚ) (B x : Nat → ℚ)
    (hpart : SupPartOK n g) (hlay : IlsumLayout (SuperSize g) ilsum g.nsupers)
    (hperm : PermOK n sp) (hm : fst_row + m_loc ≤ n) :
    pdReDistribute_B_to_X g sp ilsum m_loc nrhs ldb fst_row 1 nprow allocOK
        RecvCnt rdispls_nrhs recv_ibuf recv_dbuf B x =
      some (bToX1 g sp ilsum m_loc nrhs ldb fst_row B x, 0, 0) ∧
    (∀ i < m_loc, ∀ j < nrhs,
      bToX1 g sp ilsum m_loc nrhs ldb fst_row B x
        (X_BLK ilsum nrhs (BlockNum g (permRow sp fst_row i)) +
          (permRow sp fst_row i - FstBlockC g (BlockNum g (permRow sp fst_row i))) +
          j * SuperSize g (BlockNum g (permRow sp fst_row i)))
        = B (i + j * ldb)) ∧
    (∀ i < m_loc,
      bToX1 g sp ilsum m_loc nrhs ldb fst_row B x
        (X_BLK ilsum nrhs (BlockNum g (permRow sp fst_row i)) - XK_H)
        = ((BlockNum g (permRow sp fst_row i) : Nat) : ℚ)) ∧
    (∀ i < m_loc, ∀ i' < m_loc, ∀ j < nrhs, ∀ j' < nrhs, i ≠ i' →
      X_BLK ilsum nrhs (BlockNum g (permRow sp fst_row i)) +
        (permRow sp fst_row i - FstBlockC g (BlockNum g (permRow sp fst_row i))) +
        j * SuperSize g (BlockNum g (permRow sp fst_row i)) ≠
      X_BLK ilsum nrhs (BlockNum g (permRow sp fst_row i')) +
        (permRow sp fst_row i' - FstBlockC g (BlockNum g (permRow sp fst_row i'))) +
        j' * SuperSize g (BlockNum g (permRow sp fst_row i'))) := by
  refine ⟨rfl, ?_, ?_, ?_⟩
  · intro i hi j hj
    exact bToX1_body n g sp ilsum m_loc nrhs ldb fst_row B x hpart hlay hperm hm hi hj
  · intro i hi
    exact bToX1_header n g sp ilsum m_loc nrhs ldb fst_row B x hpart hlay hperm hm hi
  · intro i hi i' hi' j hj j' hj' hne
    exact bToX1_addr_inj n g sp ilsum nrhs fst_row hpart hlay hperm
      (by omega) (by omega) hj hj' hne

/-- Witness for C3 at the concrete instance. -/
theorem claim_bToX_single_process_witness :
    pdReDistribute_B_to_X gEx spEx ilEx 1 1 1 0 1 1 true
        (fun _ => 0) (fun _ => 0) (fun _ => 0) (fun _ => 0) BEx xEx =
      some (bToX1 gEx spEx ilEx 1 1 1 0 BEx xEx, 0, 0) ∧
    (∀ i < 1, ∀ j < 1,
      bToX1 gEx spEx ilEx 1 1 1 0 BEx xEx
        (X_BLK ilEx 1 (BlockNum gEx (permRow spEx 0 i)) +
          (permRow spEx 0 i - FstBlockC gEx (BlockNum gEx (permRow spEx 0 i))) +
          j * SuperSize gEx (BlockNum gEx (permRow spEx 0 i)))
        = BEx (i + j * 1)) ∧
    (∀ i < 1,
      bToX1 gEx spEx ilEx 1 1 1 0 BEx xEx
        (X_BLK ilEx 1 (BlockNum gEx (permRow spEx 0 i)) - XK_H)
        = ((BlockNum gEx (permRow spEx 0 i) : Nat) : ℚ)) ∧
    (∀ i < 1, ∀ i' < 1, ∀ j < 1, ∀ j' < 1, i ≠ i' →
      X_BLK ilEx 1 (BlockNum gEx (permRow spEx 0 i)) +
        (permRow spEx 0 i - FstBlockC gEx (BlockNum gEx (permRow spEx 0 i))) +
        j * SuperSize gEx (BlockNum gEx (permRow spEx 0 i)) ≠
      X_BLK ilEx 1 (BlockNum gEx (permRow spEx 0 i')) +
        (permRow spEx 0 i' - FstBlockC gEx (BlockNum gEx (permRow spEx 0 i'))) +
        j' * SuperSize gEx (BlockNum gEx (permRow spEx 0 i'))) :=
  claim_bToX_single_process 1 gEx spEx ilEx 1 1 1 0 1 true
    (fun _ => 0) (fun _ => 0) (fun _ => 0) (fun _ => 0) BEx xEx
    (by decide) (by decide) (by decide) (by decide)

/-- C4: `pdgstrs` validates its arguments before any solve work:
    `n < 0` sets `*info = -1`, else `nrhs < 0` sets `*info = -9`, and in
    either case it returns immediately with `B`, `x` and all phases
    untouched; for `n >= 0` and `nrhs >= 0` validation leaves
    `*info = 0`. -/
theorem claim_pdgstrs_validation (g : Glu) (sp : ScalePerm) (ilsum : Nat → Nat)
    (n nrhs : Int) (m_loc ldb fst_row : Nat) (B x : Nat → ℚ) :
    (n < 0 → pdgstrs g sp ilsum n nrhs m_loc ldb fst_row B x =
      ⟨-1, false, false, false, false, true, none, B, x⟩) ∧
    (0 ≤ n → nrhs < 0 → pdgstrs g sp ilsum n nrhs m_loc ldb fst_row B x =
      ⟨-9, false, false, false, false, true, none, B, x⟩) ∧
    (0 ≤ n → 0 ≤ nrhs →
      (pdgstrs g sp ilsum n nrhs m_loc ldb fst_row B x).info = 0) := by
  refine ⟨?_, ?_, ?_⟩
  · intro hn
    simp [pdgstrs, hn]
  · intro hn hr
    rw [pdgstrs]
    simp only [if_neg (by omega : ¬ n < 0), if_pos hr]
    simp
  · intro hn hr
    rw [pdgstrs]
    simp only [if_neg (by omega : ¬ n < 0), if_neg (by omega : ¬ nrhs < 0)]
    simp

/-- Witness for C4 at concrete arguments. -/
theorem claim_pdgstrs_validation_witness :
    (pdgstrs gEx spEx ilEx (-3) 1 1 1 0 BEx xEx =
      ⟨-1, false, false, false, false, true, none, BEx, xEx⟩) ∧
    (pdgstrs gEx spEx ilEx 1 (-2) 1 1 0 BEx xEx =
      ⟨-9, false, false, false, false, true, none, BEx, xEx⟩) ∧
    ((pdgstrs gEx spEx ilEx 1 1 1 1 0 BEx xEx).info = 0) :=
  ⟨(claim_pdgstrs_validation gEx spEx ilEx (-3) 1 1 1 0 BEx xEx).1 (by decide),
   (claim_pdgstrs_validation gEx spEx ilEx 1 (-2) 1 1 0 BEx xEx).2.1
     (by decide) (by decide),
   (claim_pdgstrs_validation gEx spEx ilEx 1 1 1 1 0 BEx xEx).2.2
     (by decide) (by decide)⟩

/-- C10: whenever `pdReDistribute_B_to_X` or `pdReDistribute_X_to_B`
    returns at all (their failure paths `ABORT` the process instead),
    the returned `int_t` value is 0. -/
theorem claim_redistribute_return_zero (g : Glu) (sp : ScalePerm)
    (ilsum : Nat → Nat) (m_loc nrhs ldb fst_row procs nprow : Nat)
    (allocOK allocOK' : Bool) (RecvCnt rdispls_nrhs : Nat → Nat)
    (recv_ibuf recv_ibuf' : Nat → Nat) (recv_dbuf recv_dbuf' : Nat → ℚ)
    (B x : Nat → ℚ) :
    (∀ out, pdReDistribute_B_to_X g sp ilsum m_loc nrhs ldb fst_row procs nprow
        allocOK RecvCnt rdispls_nrhs recv_ibuf recv_dbuf B x = some out →
      out.2.2 = 0) ∧
    (∀ out, pdReDistribute_X_to_B g ilsum m_loc nrhs ldb fst_row procs nprow
        allocOK' recv_ibuf' recv_dbuf' x B = some out →
      out.2.2 = 0) := by
  constructor
  · intro out hout
    rw [pdReDistribute_B_to_X] at hout
    split at hout
    · injection hout with h
      rw [← h]
    · split at hout
      · injection hout with h
        rw [← h]
      · exact Option.noConfusion hout
  · intro out hout
    rw [pdReDistribute_X_to_B] at hout
    split at hout
    · injection hout with h
      rw [← h]
    · split at hout
      · injection hout with h
        rw [← h]
      · exact Option.noConfusion hout

/-- Witness for C10: both functions return with value 0 at a concrete
    input. -/
theorem claim_redistribute_return_zero_witness :
    (pdReDistribute_B_to_X gEx spEx ilEx 1 1 1 0 1 1 true
        (fun _ => 0) (fun _ => 0) (fun _ => 0) (fun _ => 0) BEx xEx =
      some (bToX1 gEx spEx ilEx 1 1 1 0 BEx xEx, 0, 0)) ∧
    ((bToX1 gEx spEx ilEx 1 1 1 0 BEx xEx, (0 : Nat), (0 : Int)).2.2 = 0) :=
  ⟨rfl,
   (claim_redistribute_return_zero gEx spEx ilEx 1 1 1 0 1 1 true true
      (fun _ => 0) (fun _ => 0) (fun _ => 0) (fun _ => 0)
      (fun _ => 0) (fun _ => 0) BEx xEx).1 _ rfl⟩

/-- C1 (code bug): on a valid input (`n = 1`, `nrhs = 1`) the model of
    `pdgstrs` passes validation (`info = 0`), runs the B→X redistribute
    and the forward solve, and is then terminated by the unconditional
    `MPI_Barrier(MPI_COMM_WORLD); exit(0)` at source lines 1763-1764:
    the backward solve and the X→B redistribute never execute and the
    call never returns, so the claimed full pipeline with a normal
    `info = 0` return does not happen. -/
theorem pdgstrs_pipeline_cut_short :
    (pdgstrs gEx spEx ilEx 1 1 1 1 0 BEx xEx).info = 0 ∧
    (pdgstrs gEx spEx ilEx 1 1 1 1 0 BEx xEx).ranBtoX = true ∧
    (pdgstrs gEx spEx ilEx 1 1 1 1 0 BEx xEx).ranLsolve = true ∧
    (pdgstrs gEx spEx ilEx 1 1 1 1 0 BEx xEx).ranUsolve = false ∧
    (pdgstrs gEx spEx ilEx 1 1 1 1 0 BEx xEx).ranXtoB = false ∧
    (pdgstrs gEx spEx ilEx 1 1 1 1 0 BEx xEx).returned = false ∧
    (pdgstrs gEx spEx ilEx 1 1 1 1 0 BEx xEx).exitCode = some 0 :=
  ⟨rfl, rfl, rfl, rfl, rfl, rfl, rfl⟩

/-- C9 (code bug): for `nrhs = 0` and valid `n`, the model of `pdgstrs`
    leaves `B` unchanged and `*info = 0`, but the call is not a no-op
    success: it never returns, since the unconditional `exit(0)` at
    source line 1764 kills the process after the forward-solve phase. -/
theorem pdgstrs_nrhs_zero_cut_short :
    (pdgstrs gEx spEx ilEx 1 0 1 1 0 BEx xEx).info = 0 ∧
    (pdgstrs gEx spEx ilEx 1 0 1 1 0 BEx xEx).Bout = BEx ∧
    (pdgstrs gEx spEx ilEx 1 0 1 1 0 BEx xEx).ranXtoB = false ∧
    (pdgstrs gEx spEx ilEx 1 0 1 1 0 BEx xEx).returned = false ∧
    (pdgstrs gEx spEx ilEx 1 0 1 1 0 BEx xEx).exitCode = some 0 :=
  ⟨rfl, rfl, rfl, rfl, rfl⟩

/-- C5 (counterexample): with the `Linv` inversion of supernode 0
    returning non-zero status 5 on a single process with two supernodes,
    the loop does continue over both supernodes, but the `info` output
    cell still holds its caller value 0 afterwards — the numerical
    failure is not recorded in the `info` output argument (both
    `dtrtri_` calls write only the local `INFO`, which is itself
    overwritten and discarded). -/
theorem diagInv_info_not_recorded :
    statusLEx 0 ≠ 0 ∧
    (pdCompute_Diag_Inv statusLEx statusUEx 0 0 1 1 2 0 0).infoOut = 0 ∧
    (pdCompute_Diag_Inv statusLEx statusUEx 0 0 1 1 2 0 0).processed = [0, 1] :=
  ⟨by decide, rfl, by decide⟩

/-- C5 (amended): whatever statuses the `dtrtri_` calls return, they are
    stored only in the function-local `INFO` variable (the `Uinv` call
    overwriting the `Linv` one) and discarded: the `info` output
    argument of `pdCompute_Diag_Inv` keeps its caller-side value, and
    the loop continues over all supernodes, processing exactly the
    diagonal ones. -/
theorem claim_diagInv_discards_status (statusL statusU : Nat → Int)
    (myrow mycol nprow npcol nsupers : Nat) (info0 INFO0 : Int) :
    (pdCompute_Diag_Inv statusL statusU myrow mycol nprow npcol nsupers
      info0 INFO0).infoOut = info0 ∧
    (pdCompute_Diag_Inv statusL statusU myrow mycol nprow npcol nsupers
      info0 INFO0).processed =
    (List.range nsupers).filter
      (fun k => decide (myrow = PROW k nprow) && decide (mycol = PCOL k npcol)) :=
  ⟨pdCompute_Diag_Inv_infoOut statusL statusU myrow mycol nprow npcol nsupers
      info0 INFO0,
   pdCompute_Diag_Inv_processed statusL statusU myrow mycol nprow npcol nsupers
      info0 INFO0⟩

/-- C6: after the two solve setup loops, the combined counter of every
    local block row `lk` satisfies `fmod[lk] = Llu->fmod[lk] + frecv[lk]`
    where `frecv[lk]` is the destination count of `LRtree[lk]` and zero
    when that tree is absent; symmetrically
    `bmod[lk] = Llu->bmod[lk] + brecv[lk]` with `brecv` from
    `URtree[lk]`.  (In the `procs == 1` branch the loop never reads
    `LRtree`, so the statement uses the fact that a single-process run
    has no inter-process reduction trees.) -/
theorem claim_combined_counters (procs : Nat) (LRtree URtree : Nat → Option Nat)
    (fmod0 bmod0 : Nat → Int) (myrow mycol nprow npcol nsupers nlb : Nat)
    {lk : Nat} (hlk : lk < nlb) (h1 : procs = 1 → LRtree lk = none) :
    (modCombine fmod0
        (lsolveSetup procs LRtree fmod0 myrow mycol nprow npcol nsupers nlb).recvCnt
        nlb lk = fmod0 lk + (optCount (LRtree lk) : Int) ∧
     (lsolveSetup procs LRtree fmod0 myrow mycol nprow npcol nsupers nlb).recvCnt lk
        = optCount (LRtree lk)) ∧
    (modCombine bmod0
        (treeSetup URtree bmod0 myrow mycol nprow npcol nsupers nlb).recvCnt
        nlb lk = bmod0 lk + (optCount (URtree lk) : Int) ∧
     (treeSetup URtree bmod0 myrow mycol nprow npcol nsupers nlb).recvCnt lk
        = optCount (URtree lk)) := by
  have hf : (lsolveSetup procs LRtree fmod0 myrow mycol nprow npcol nsupers nlb).recvCnt lk
      = optCount (LRtree lk) := by
    rw [lsolveSetup]
    by_cases hp : procs = 1
    · rw [if_pos hp, h1 hp]
      rfl
    · rw [if_neg hp]
      exact treeSetup_recvCnt LRtree fmod0 myrow mycol nprow npcol nsupers nlb hlk
  have hb : (treeSetup URtree bmod0 myrow mycol nprow npcol nsupers nlb).recvCnt lk
      = optCount (URtree lk) :=
    treeSetup_recvCnt URtree bmod0 myrow mycol nprow npcol nsupers nlb hlk
  refine ⟨⟨?_, hf⟩, ?_, hb⟩
  · simp only [modCombine]
    rw [if_pos hlk, hf]
  · simp only [modCombine]
    rw [if_pos hlk, hb]

/-- Witness for C6 at concrete trees and counters. -/
theorem claim_combined_counters_witness :
    (modCombine (fun _ => 2)
        (lsolveSetup 2 (fun l => if l = 0 then some 3 else none) (fun _ => 2)
          0 0 2 1 2 1).recvCnt 1 0
      = (fun _ => (2 : Int)) 0 +
          (optCount ((fun l => if l = 0 then some 3 else none) 0) : Int) ∧
     (lsolveSetup 2 (fun l => if l = 0 then some 3 else none) (fun _ => 2)
        0 0 2 1 2 1).recvCnt 0
      = optCount ((fun l => if l = 0 then some 3 else none) 0)) ∧
    (modCombine (fun _ => 4)
        (treeSetup (fun _ => none) (fun _ => 4) 0 0 2 1 2 1).recvCnt 1 0
      = (fun _ => (4 : Int)) 0 + (optCount ((fun _ => (none : Option Nat)) 0) : Int) ∧
     (treeSetup (fun _ => none) (fun _ => 4) 0 0 2 1 2 1).recvCnt 0
      = optCount ((fun _ => (none : Option Nat)) 0)) :=
  claim_combined_counters 2 (fun l => if l = 0 then some 3 else none) (fun _ => none)
    (fun _ => 2) (fun _ => 4) 0 0 2 1 2 1 (by decide) (by decide)

/-- C7: the header cell of each supernode's `x` slice holds the global
    supernode number after `pdReDistribute_B_to_X` completes — on the
    `Pr*Pc == 1` path for every supernode, and on the `Alltoallv`
    receive-scatter path for every supernode that received a row — and
    stays there: any sequence of later stores into block body cells (the
    solve kernels write only body slices) leaves every header cell
    unchanged.  (`XK_H = 1`, so the header cell is `x[X_BLK(lk) - 1]`.) -/
theorem claim_x_header_invariant (n : Nat) (g : Glu) (sp : ScalePerm)
    (ilsum : Nat → Nat) (nrhs ldb : Nat) (B x : Nat → ℚ)
    (nprow procs myrow nlb : Nat)
    (RecvCnt rdispls_nrhs : Nat → Nat) (recv_ibuf : Nat → Nat)
    (recv_dbuf : Nat → ℚ) (ws : List (Nat × ℚ)) (a : Nat → ℚ)
    (hpart : SupPartOK n g)
    (hlay1 : IlsumLayout (SuperSize g) ilsum g.nsupers)
    (hperm : PermOK n sp)
    (hsurj : ∀ r < n, ∃ i, i < n ∧ permRow sp 0 i = r)
    (hlayP : IlsumLayout (locSz g myrow nprow) ilsum nlb)
    (hrecv : ∀ p < procs, ∀ i < RecvCnt p,
      RecvRowOK n g myrow nprow nlb (recv_ibuf (recvOff RecvCnt p i)))
    (hws : ∀ w ∈ ws, ∃ lk, lk < nlb ∧ ∃ r, r < locSz g myrow nprow lk ∧
      ∃ j, j < nrhs ∧ w.1 = bodyIdx ilsum nrhs lk r j (locSz g myrow nprow lk)) :
    (∀ k < g.nsupers,
      bToX1 g sp ilsum n nrhs ldb 0 B x (X_BLK ilsum nrhs k - XK_H)
        = ((k : Nat) : ℚ)) ∧
    (∀ k, (∃ p, p < procs ∧ ∃ i, i < RecvCnt p ∧
        BlockNum g (recv_ibuf (recvOff RecvCnt p i)) = k) →
      writesFold (bToXRecvWrites g ilsum nrhs nprow procs RecvCnt rdispls_nrhs
          recv_ibuf recv_dbuf) x
        (X_BLK ilsum nrhs (LBi k nprow) - XK_H) = ((k : Nat) : ℚ)) ∧
    (∀ lk ≤ nlb,
      writesFold ws a (X_BLK ilsum nrhs lk - XK_H)
        = a (X_BLK ilsum nrhs lk - XK_H)) := by
  refine ⟨?_, ?_, ?_⟩
  · intro k hk
    exact bToX1_header_all n g sp ilsum nrhs ldb B x hpart hlay1 hperm hsurj hk
  · intro k hk
    obtain ⟨p, hp, i, hi, hbn⟩ := hk
    exact bToXRecv_header n g ilsum nrhs nprow procs myrow nlb RecvCnt
      rdispls_nrhs recv_ibuf recv_dbuf x hpart hlayP hrecv ⟨p, hp, i, hi, hbn⟩
  · intro lk hlk
    rw [hdr_eq_X_BLK_sub]
    exact bodyWrites_preserve_hdr (locSz g myrow nprow) ilsum nlb nrhs hlayP
      ws a hws hlk

/-- Witness for C7 at the concrete instance (single process: `nprow = 1`,
    `myrow = 0`, no received entries, no later stores). -/
theorem claim_x_header_invariant_witness :
    (∀ k < gEx.nsupers,
      bToX1 gEx spEx ilEx 1 1 1 0 BEx xEx (X_BLK ilEx 1 k - XK_H)
        = ((k : Nat) : ℚ)) ∧
    (∀ k, (∃ p, p < 1 ∧ ∃ i, i < (fun _ => (0 : Nat)) p ∧
        BlockNum gEx ((fun _ => (0 : Nat)) (recvOff (fun _ => 0) p i)) = k) →
      writesFold (bToXRecvWrites gEx ilEx 1 1 1 (fun _ => 0) (fun _ => 0)
          (fun _ => 0) (fun _ => 0)) xEx
        (X_BLK ilEx 1 (LBi k 1) - XK_H) = ((k : Nat) : ℚ)) ∧
    (∀ lk ≤ 1,
      writesFold [] xEx (X_BLK ilEx 1 lk - XK_H)
        = xEx (X_BLK ilEx 1 lk - XK_H)) :=
  claim_x_header_invariant 1 gEx spEx ilEx 1 1 BEx xEx 1 1 0 1
    (fun _ => 0) (fun _ => 0) (fun _ => 0) (fun _ => 0) [] xEx
    (by decide) (by decide) (by decide) (by decide) (by decide) (by decide)
    (by simp)

/-- C8 (counterexample): with `nfrecvx = 2` and `nfrecvmod = 1`, the
    guard of the one-sided forward-solve progress loop is still true
    when the received-message counter has reached
    `nfrecvx + nfrecvmod = 3`: the loop does not terminate exactly when
    the counter reaches the total. -/
theorem lsolve_guard_true_at_total : lsolveOneSideGuard 3 2 1 = true := rfl

/-- C8 (amended): the backward-solve progress loop performs exactly
    `nbrecvx + nbrecvmod` receive iterations, one blocking receive per
    iteration; the forward-solve progress loop exists only in the
    one-sided build, and its guard keeps the loop running while
    `nfrecv <= nfrecvx + nfrecvmod`, terminating only once the counter
    exceeds that total. -/
theorem claim_progress_loop_counts
    (nbrecvx nbrecvmod nfrecv nfrecvx nfrecvmod : Nat) :
    usolveRecvTotal nbrecvx nbrecvmod = nbrecvx + nbrecvmod ∧
    (lsolveOneSideGuard nfrecv nfrecvx nfrecvmod = false ↔
      nfrecvx + nfrecvmod < nfrecv) := by
  constructor
  · exact usolveRecvTotal_eq nbrecvx nbrecvmod
  · rw [lsolveOneSideGuard]
    rcases Nat.lt_or_ge (nfrecvx + nfrecvmod) nfrecv with h | h
    · rw [if_neg (by omega)]
      simp [h]
    · rw [if_pos (by omega)]
      constructor
      · intro hc
        exact absurd hc (by simp)
      · intro hc
        omega

end SLU
